import Mathlib

/-!
Verification development for the Bybit gateway connectivity core
(`vnpy/gateway/bybit/bybit_gateway.py`).

The Python code is shallowly embedded: Python `dict`s become association
lists with Python's semantics (assignment replaces the value of the first
matching key in place, a fresh key is appended; `pop` removes the entry
and fails — `KeyError` — when the key is absent), fallible code returns
`Option`/`Except` or an explicit success flag, and exchange prices/sizes
(decoded from strings by `float(...)` before they reach the book) are
modelled as rationals.
-/

namespace VnpyBybit

/-! ## Python dict primitives -/

/-- Python `d[k]` read: value of the first entry with key `k`. -/
def dictGet {α β : Type} [DecidableEq α] (k : α) : List (α × β) → Option β
  | [] => none
  | (a, b) :: t => if a = k then some b else dictGet k t

/-- Python `d[k] = v`: replace the value of an existing key in place,
append a fresh key at the end (insertion order preserved). -/
def dictSet {α β : Type} [DecidableEq α] (k : α) (v : β) : List (α × β) → List (α × β)
  | [] => [(k, v)]
  | (a, b) :: t => if a = k then (a, v) :: t else (a, b) :: dictSet k v t

/-- Python `d.pop(k)` (no default): remove the entry if present
(`true`), otherwise leave the dict unchanged and fail (`false`,
a `KeyError` in the source). -/
def dictPop {α β : Type} [DecidableEq α] (k : α) : List (α × β) → List (α × β) × Bool
  | [] => ([], false)
  | (a, b) :: t =>
    if a = k then (t, true)
    else
      let r := dictPop k t
      ((a, b) :: r.1, r.2)

/-- Python `list(d.keys())` (insertion order). -/
def dictKeys {α β : Type} : List (α × β) → List α :=
  List.map Prod.fst

@[simp] theorem dictGet_nil {α β : Type} [DecidableEq α] (k : α) :
    dictGet (β := β) k [] = none := rfl

@[simp] theorem dictGet_cons {α β : Type} [DecidableEq α] (k a : α) (b : β) (t : List (α × β)) :
    dictGet k ((a, b) :: t) = if a = k then some b else dictGet k t := rfl

theorem dictGet_dictSet {α β : Type} [DecidableEq α] (k q : α) (v : β) (l : List (α × β)) :
    dictGet q (dictSet k v l) = if k = q then some v else dictGet q l := by
  induction l with
  | nil => by_cases h : k = q <;> simp [dictSet, dictGet, h]
  | cons hd t ih =>
    obtain ⟨a, b⟩ := hd
    by_cases hak : a = k
    · subst hak
      by_cases haq : a = q
      · subst haq
        simp [dictSet, dictGet]
      · simp [dictSet, dictGet, haq]
    · have hset : dictSet k v ((a, b) :: t) = (a, b) :: dictSet k v t := by
        simp [dictSet, hak]
      rw [hset]
      by_cases haq : a = q
      · subst haq
        have hkq : k ≠ a := fun hh => hak hh.symm
        simp [dictGet, hkq]
      · simp [dictGet, haq, ih]

theorem dictGet_eq_none_of_not_mem {α β : Type} [DecidableEq α] (q : α) (l : List (α × β))
    (h : q ∉ dictKeys l) : dictGet q l = none := by
  induction l with
  | nil => rfl
  | cons hd t ih =>
    obtain ⟨a, b⟩ := hd
    simp only [dictKeys, List.map_cons, List.mem_cons, not_or] at h
    have haq : a ≠ q := fun hh => h.1 hh.symm
    simp [dictGet, haq, ih (by simpa [dictKeys] using h.2)]

theorem dictPop_get_self {α β : Type} [DecidableEq α] (k : α) (l : List (α × β))
    (h : (dictKeys l).Nodup) : dictGet k (dictPop k l).1 = none := by
  induction l with
  | nil => simp [dictPop]
  | cons hd t ih =>
    obtain ⟨a, b⟩ := hd
    simp only [dictKeys, List.map_cons, List.nodup_cons] at h
    by_cases hak : a = k
    · subst hak
      simp only [dictPop, if_pos rfl]
      exact dictGet_eq_none_of_not_mem a t (by simpa [dictKeys] using h.1)
    · have hpop : (dictPop k ((a, b) :: t)).1 = (a, b) :: (dictPop k t).1 := by
        simp [dictPop, hak]
      rw [hpop]
      simp [dictGet, hak, ih (by simpa [dictKeys] using h.2)]

theorem dictPop_get_ne {α β : Type} [DecidableEq α] (k q : α) (l : List (α × β))
    (h : q ≠ k) : dictGet q (dictPop k l).1 = dictGet q l := by
  induction l with
  | nil => simp [dictPop]
  | cons hd t ih =>
    obtain ⟨a, b⟩ := hd
    by_cases hak : a = k
    · subst hak
      have haq : a ≠ q := fun hh => h hh.symm
      simp [dictPop, dictGet, haq]
    · have hpop : (dictPop k ((a, b) :: t)).1 = (a, b) :: (dictPop k t).1 := by
        simp [dictPop, hak]
      rw [hpop]
      simp [dictGet, ih]

theorem dictPop_keys_sublist {α β : Type} [DecidableEq α] (k : α) (l : List (α × β)) :
    (dictKeys (dictPop k l).1).Sublist (dictKeys l) := by
  induction l with
  | nil => simp [dictPop]
  | cons hd t ih =>
    obtain ⟨a, b⟩ := hd
    by_cases hak : a = k
    · subst hak
      simp only [dictPop, if_pos rfl, dictKeys, List.map_cons]
      exact List.Sublist.cons a (List.Sublist.refl _)
    · have hpop : (dictPop k ((a, b) :: t)).1 = (a, b) :: (dictPop k t).1 := by
        simp [dictPop, hak]
      rw [hpop]
      simp only [dictKeys, List.map_cons]
      exact List.Sublist.cons₂ a (by simpa [dictKeys] using ih)

theorem dictPop_nodup {α β : Type} [DecidableEq α] (k : α) (l : List (α × β))
    (h : (dictKeys l).Nodup) : (dictKeys (dictPop k l).1).Nodup :=
  h.sublist (dictPop_keys_sublist k l)

theorem dictSet_keys_mem {α β : Type} [DecidableEq α] (k q : α) (v : β) (l : List (α × β))
    (h : q ∈ dictKeys (dictSet k v l)) : q = k ∨ q ∈ dictKeys l := by
  induction l with
  | nil => simpa [dictSet, dictKeys] using h
  | cons hd t ih =>
    obtain ⟨a, b⟩ := hd
    by_cases hak : a = k
    · subst hak
      simpa [dictSet, dictKeys] using h
    · simp only [dictSet, if_neg hak, dictKeys, List.map_cons, List.mem_cons] at h ⊢
      rcases h with h | h
      · exact Or.inr (Or.inl h)
      · rcases ih h with h' | h'
        · exact Or.inl h'
        · exact Or.inr (Or.inr h')

theorem dictSet_nodup {α β : Type} [DecidableEq α] (k : α) (v : β) (l : List (α × β))
    (h : (dictKeys l).Nodup) : (dictKeys (dictSet k v l)).Nodup := by
  induction l with
  | nil => simp [dictSet, dictKeys]
  | cons hd t ih =>
    obtain ⟨a, b⟩ := hd
    simp only [dictKeys, List.map_cons, List.nodup_cons] at h
    by_cases hak : a = k
    · subst hak
      have hset : dictSet a v ((a, b) :: t) = (a, v) :: t := by simp [dictSet]
      rw [hset]
      simp only [dictKeys, List.map_cons, List.nodup_cons]
      exact ⟨h.1, h.2⟩
    · have hset : dictSet k v ((a, b) :: t) = (a, b) :: dictSet k v t := by
        simp [dictSet, hak]
      rw [hset]
      simp only [dictKeys, List.map_cons, List.nodup_cons]
      refine ⟨?_, ih h.2⟩
      intro hm
      rcases dictSet_keys_mem k a v t (by simpa [dictKeys] using hm) with h' | h'
      · exact hak h'
      · exact h.1 (by simpa [dictKeys] using h')

/-! ## Order book reconstruction (`BybitPublicWebsocketApi.on_depth`, and the
identical logic in `BybitWebsocketApi.on_depth`) -/

/-- One level record `d` of an `orderBookL2_25` packet; the code stores the
whole record as the dict value and later reads `d["size"]`. Any `side`
other than `"Buy"` is routed to the ask book, as in the source's
`if d["side"] == "Buy" ... else ...`. -/
structure LevelRec where
  side : String
  price : ℚ
  size : ℚ
deriving DecidableEq, Repr

/-- The two per-symbol dicts `bids`/`asks` (price → level record). -/
structure BookPair where
  bids : List (ℚ × LevelRec)
  asks : List (ℚ × LevelRec)
deriving DecidableEq, Repr

/-- `True` when the record is routed to the bid book
(`d["side"] == "Buy"`). -/
def routesBuy (d : LevelRec) : Bool :=
  d.side = "Buy"

/-- The dict a record's side routes to. -/
def sideBook (buy : Bool) (st : BookPair) : List (ℚ × LevelRec) :=
  if buy then st.bids else st.asks

/-- `bids.pop(price)` / `asks.pop(price)` for one delete record; the flag is
`false` on `KeyError` (price absent), in which case the books are
unchanged. -/
def popSide (d : LevelRec) (st : BookPair) : BookPair × Bool :=
  if routesBuy d then
    let r := dictPop d.price st.bids
    ({ st with bids := r.1 }, r.2)
  else
    let r := dictPop d.price st.asks
    ({ st with asks := r.1 }, r.2)

/-- `bids[price] = d` / `asks[price] = d` for one record. -/
def setSide (d : LevelRec) (st : BookPair) : BookPair :=
  if routesBuy d then { st with bids := dictSet d.price d st.bids }
  else { st with asks := dictSet d.price d st.asks }

/-- The `for d in data["delete"]: ... pop(price)` loop. A `KeyError`
aborts the loop (flag `false`), leaving the mutations made so far in
place, exactly as the exception propagates in Python. -/
def deletePass : List LevelRec → BookPair → BookPair × Bool
  | [], st => (st, true)
  | d :: rest, st =>
    let r := popSide d st
    if r.2 then deletePass rest r.1 else (r.1, false)

/-- The `for d in (data["update"] + data["insert"]): ...` loop (and the
snapshot's `for d in data["order_book"]` loop, which runs the same
assignments). -/
def upsertPass : List LevelRec → BookPair → BookPair
  | [], st => st
  | d :: rest, st => upsertPass rest (setSide d st)

/-- The non-snapshot branch of `on_depth`: delete loop first, then the
update+insert loop. -/
def applyDelta (del upd ins : List LevelRec) (st : BookPair) : BookPair × Bool :=
  let r := deletePass del st
  if r.2 then (upsertPass (upd ++ ins) r.1, true) else (r.1, false)

/-- The five bid/ask depth slots of the cached `TickData`
(`bid_price_1..5` etc., all initialised to `0` by the tick object). -/
structure Tick5 where
  bid_price : List ℚ
  bid_volume : List ℚ
  ask_price : List ℚ
  ask_volume : List ℚ
deriving DecidableEq, Repr

/-- One iteration of `for i in range(5)`: reads `bid_keys[i]`,
`bids[bid_price]`, `ask_keys[i]`, `asks[ask_price]` and then sets the
four depth attributes. An out-of-range index is an `IndexError`: the
flag drops to `false` and all later iterations are skipped, keeping the
attributes already set (the exception propagates). -/
def extractStep (bids asks : List (ℚ × LevelRec)) (bk ak : List ℚ)
    (acc : Tick5 × Bool) (i : ℕ) : Tick5 × Bool :=
  if acc.2 then
    match bk.get? i with
    | none => (acc.1, false)
    | some bp =>
      match dictGet bp bids with
      | none => (acc.1, false)
      | some bd =>
        match ak.get? i with
        | none => (acc.1, false)
        | some ap =>
          match dictGet ap asks with
          | none => (acc.1, false)
          | some ad =>
            ({ bid_price := acc.1.bid_price.set i bp
               bid_volume := acc.1.bid_volume.set i bd.size
               ask_price := acc.1.ask_price.set i ap
               ask_volume := acc.1.ask_volume.set i ad.size }, true)
  else acc

/-- The "Calculate 1-5 bid/ask depth" block: sort bid keys descending and
ask keys ascending, then run the fixed `range(5)` loop. -/
def extractTop5 (st : BookPair) (t : Tick5) : Tick5 × Bool :=
  let bk := List.insertionSort (· ≥ ·) (dictKeys st.bids)
  let ak := List.insertionSort (· ≤ ·) (dictKeys st.asks)
  (List.range 5).foldl (extractStep st.bids st.asks bk ak) (t, true)

/-- An `orderBookL2_25` packet, restricted to one symbol's stream (the
symbol is recovered from the topic by a string `replace` in the source
and only selects which per-symbol dicts are touched). -/
structure DepthPacket where
  type_ : String
  order_book : List LevelRec
  delete : List LevelRec
  update : List LevelRec
  insert : List LevelRec
deriving DecidableEq, Repr

/-- Per-symbol state touched by `on_depth`: the two book dicts and the
cached tick's depth slots. -/
structure DepthState where
  books : BookPair
  tick : Tick5
deriving DecidableEq, Repr

/-- `on_depth`: apply the snapshot or delta to the book dicts, then run
the top-5 extraction and (if nothing raised) emit a copy of the tick.
The second component is the emitted quote, `none` when an exception
(`KeyError` in a delete, or `IndexError` in the extraction) propagates
instead; the mutations made before the exception persist in the first
component. -/
def on_depth (st : DepthState) (pkt : DepthPacket) : DepthState × Option Tick5 :=
  if pkt.type_ = "snapshot" then
    let b1 := upsertPass pkt.order_book st.books
    let e := extractTop5 b1 st.tick
    ({ books := b1, tick := e.1 }, if e.2 then some e.1 else none)
  else
    let r := applyDelta pkt.delete pkt.update pkt.insert st.books
    if r.2 then
      let e := extractTop5 r.1 st.tick
      ({ books := r.1, tick := e.1 }, if e.2 then some e.1 else none)
    else
      ({ books := r.1, tick := st.tick }, none)

/-- Well-formedness of a book dict: keys are pairwise distinct (true of
every Python dict). -/
def bookWF (b : List (ℚ × LevelRec)) : Prop :=
  (dictKeys b).Nodup

instance (b : List (ℚ × LevelRec)) : Decidable (bookWF b) := by
  unfold bookWF; infer_instance

/-- Well-formedness of both sides. -/
def pairWF (st : BookPair) : Prop :=
  bookWF st.bids ∧ bookWF st.asks

instance (st : BookPair) : Decidable (pairWF st) := by
  unfold pairWF; infer_instance

/-- The prices a delta's delete list removes from the side selected by
`buy`. -/
def delPrices (buy : Bool) (L : List LevelRec) : List ℚ :=
  (L.filter (fun d => routesBuy d == buy)).map (fun d => d.price)

/-- The last record of an upsert list (`update + insert`, processed left
to right, last write wins) that targets price `q` on the side selected by
`buy`. -/
def findLastUpsert (buy : Bool) (q : ℚ) : List LevelRec → Option LevelRec
  | [] => none
  | d :: rest =>
    match findLastUpsert buy q rest with
    | some r => some r
    | none => if routesBuy d = buy ∧ d.price = q then some d else none

theorem popSide_wf (d : LevelRec) (st : BookPair) (h : pairWF st) :
    pairWF (popSide d st).1 := by
  unfold popSide
  cases hb : routesBuy d <;>
    simp only [if_pos, if_neg, Bool.false_eq_true, ite_false, ite_true] <;>
    exact ⟨by first | exact dictPop_nodup _ _ h.1 | exact h.1,
           by first | exact dictPop_nodup _ _ h.2 | exact h.2⟩

theorem deletePass_wf (L : List LevelRec) (st : BookPair) (h : pairWF st) :
    pairWF (deletePass L st).1 := by
  induction L generalizing st with
  | nil => exact h
  | cons d rest ih =>
    unfold deletePass
    cases hpop : (popSide d st).2 <;> simp only [hpop, ite_true, ite_false]
    · exact popSide_wf d st h
    · exact ih _ (popSide_wf d st h)

theorem setSide_wf (d : LevelRec) (st : BookPair) (h : pairWF st) :
    pairWF (setSide d st) := by
  unfold setSide
  cases hb : routesBuy d <;> simp only [Bool.false_eq_true, ite_false, ite_true] <;>
    exact ⟨by first | exact dictSet_nodup _ _ _ h.1 | exact h.1,
           by first | exact dictSet_nodup _ _ _ h.2 | exact h.2⟩

theorem upsertPass_wf (L : List LevelRec) (st : BookPair) (h : pairWF st) :
    pairWF (upsertPass L st) := by
  induction L generalizing st with
  | nil => exact h
  | cons d rest ih => exact ih _ (setSide_wf d st h)

theorem applyDelta_wf (del upd ins : List LevelRec) (st : BookPair) (h : pairWF st) :
    pairWF (applyDelta del upd ins st).1 := by
  unfold applyDelta
  cases hflag : (deletePass del st).2 <;> simp only [hflag, ite_true, ite_false]
  · exact deletePass_wf del st h
  · exact upsertPass_wf _ _ (deletePass_wf del st h)

theorem popSide_get (d : LevelRec) (st : BookPair) (buy : Bool) (q : ℚ)
    (hwf : pairWF st) :
    dictGet q (sideBook buy (popSide d st).1) =
      if routesBuy d = buy ∧ q = d.price then none
      else dictGet q (sideBook buy st) := by
  unfold popSide sideBook
  by_cases hq : q = d.price
  · subst hq
    cases hb : routesBuy d <;> cases buy <;>
      simp [hb, dictPop_get_self _ _ hwf.1, dictPop_get_self _ _ hwf.2]
  · cases hb : routesBuy d <;> cases buy <;>
      simp [hb, hq, dictPop_get_ne _ _ _ hq]

theorem mem_delPrices_cons (buy : Bool) (q : ℚ) (d : LevelRec) (rest : List LevelRec) :
    q ∈ delPrices buy (d :: rest) ↔
      (routesBuy d = buy ∧ q = d.price) ∨ q ∈ delPrices buy rest := by
  simp only [delPrices, List.filter_cons]
  cases hc : (routesBuy d == buy)
  · have hne : ¬routesBuy d = buy := by
      intro h; simp [h] at hc
    simp only [Bool.false_eq_true, ite_false]
    constructor
    · intro h; exact Or.inr h
    · rintro (⟨h1, _⟩ | h)
      · exact absurd h1 hne
      · exact h
  · have heq : routesBuy d = buy := by simpa using hc
    simp only [ite_true, List.map_cons, List.mem_cons]
    constructor
    · rintro (h | h)
      · exact Or.inl ⟨heq, h⟩
      · exact Or.inr h
    · rintro (⟨_, h2⟩ | h)
      · exact Or.inl h2
      · exact Or.inr h

theorem deletePass_get (L : List LevelRec) (st : BookPair) (hwf : pairWF st)
    (hok : (deletePass L st).2 = true) (buy : Bool) (q : ℚ) :
    dictGet q (sideBook buy (deletePass L st).1) =
      if q ∈ delPrices buy L then none else dictGet q (sideBook buy st) := by
  induction L generalizing st with
  | nil => simp [deletePass, delPrices]
  | cons d rest ih =>
    unfold deletePass at hok ⊢
    cases hpop : (popSide d st).2
    · simp [hpop] at hok
    · simp only [hpop, ite_true] at hok ⊢
      rw [ih _ (popSide_wf d st hwf) hok, popSide_get d st buy q hwf]
      by_cases h1 : q ∈ delPrices buy rest
      · simp [h1, mem_delPrices_cons]
      · by_cases h2 : routesBuy d = buy ∧ q = d.price
        · simp [h1, h2, mem_delPrices_cons]
        · simp [h1, h2, mem_delPrices_cons]

theorem setSide_get (d : LevelRec) (st : BookPair) (buy : Bool) (q : ℚ) :
    dictGet q (sideBook buy (setSide d st)) =
      if routesBuy d = buy ∧ d.price = q then some d
      else dictGet q (sideBook buy st) := by
  unfold setSide sideBook
  cases hb : routesBuy d <;> cases buy <;>
    simp [hb, dictGet_dictSet]

theorem upsertPass_get (L : List LevelRec) (st : BookPair) (buy : Bool) (q : ℚ) :
    dictGet q (sideBook buy (upsertPass L st)) =
      match findLastUpsert buy q L with
      | some r => some r
      | none => dictGet q (sideBook buy st) := by
  induction L generalizing st with
  | nil => simp [upsertPass, findLastUpsert]
  | cons d rest ih =>
    unfold upsertPass findLastUpsert
    rw [ih]
    cases hrest : findLastUpsert buy q rest
    · rw [setSide_get]
      by_cases hc : routesBuy d = buy ∧ d.price = q <;> simp [hc]
    · simp

theorem applyDelta_get (del upd ins : List LevelRec) (st : BookPair)
    (hwf : pairWF st) (hok : (applyDelta del upd ins st).2 = true)
    (buy : Bool) (q : ℚ) :
    dictGet q (sideBook buy (applyDelta del upd ins st).1) =
      match findLastUpsert buy q (upd ++ ins) with
      | some r => some r
      | none =>
        if q ∈ delPrices buy del then none else dictGet q (sideBook buy st) := by
  unfold applyDelta at hok ⊢
  cases hflag : (deletePass del st).2
  · simp [hflag] at hok
  · simp only [hflag, ite_true]
    rw [upsertPass_get, deletePass_get del st hwf hflag]

/-- For a non-snapshot packet, `on_depth` leaves the books exactly as the
delete-then-upsert application leaves them (the depth extraction does not
touch the books). -/
theorem on_depth_books_delta (st : DepthState) (pkt : DepthPacket)
    (h : pkt.type_ ≠ "snapshot") :
    (on_depth st pkt).1.books =
      (applyDelta pkt.delete pkt.update pkt.insert st.books).1 := by
  unfold on_depth
  rw [if_neg h]
  cases hflag : (applyDelta pkt.delete pkt.update pkt.insert st.books).2 <;>
    simp [hflag]

/-! ## Claim theorems on the order book -/

/-- Convenience constructor for a `"Buy"` level record. -/
def buyLevel (p s : ℚ) : LevelRec :=
  { side := "Buy", price := p, size := s }

/-- Convenience constructor for a `"Sell"` level record. -/
def sellLevel (p s : ℚ) : LevelRec :=
  { side := "Sell", price := p, size := s }

/-- Fresh `TickData` depth slots (all fields default to `0`). -/
def tick0 : Tick5 :=
  { bid_price := [0, 0, 0, 0, 0], bid_volume := [0, 0, 0, 0, 0]
    ask_price := [0, 0, 0, 0, 0], ask_volume := [0, 0, 0, 0, 0] }

/-- A snapshot carrying one bid level and five ask levels. -/
def thinSnapshot : DepthPacket :=
  { type_ := "snapshot"
    order_book := [buyLevel 100 1, sellLevel 101 1, sellLevel 102 1,
      sellLevel 103 1, sellLevel 104 1, sellLevel 105 1]
    delete := [], update := [], insert := [] }

/-- The per-symbol state right after `subscribe`: empty books, fresh tick. -/
def emptyDepthState : DepthState :=
  { books := { bids := [], asks := [] }, tick := tick0 }

/-- C1: the claim requires the top-5 extraction not to fault when a side
holds fewer than 5 levels; the code indexes `bid_keys[1]` out of range
instead. On a snapshot leaving exactly one resting bid level, `on_depth`
raises (`IndexError`, modelled as the emission being `none`) and emits no
quote, contradicting the required "mark missing slots absent" behaviour;
the spec itself flags this fixed-index extraction as a latent fault. -/
theorem c1_thin_depth_extraction_faults :
    (on_depth emptyDepthState thinSnapshot).2 = none ∧
      (on_depth emptyDepthState thinSnapshot).1.books.bids.length = 1 ∧
      (on_depth emptyDepthState thinSnapshot).1.books.asks.length = 5 := by
  decide

/-- Book state with two resting bids, used to refute C3 as stated. -/
def c3xState : DepthState :=
  { books := { bids := [(1, buyLevel 1 5), (2, buyLevel 2 7)], asks := [] }
    tick := tick0 }

/-- A delta deleting prices 1 and 2 and re-upserting only price 1. -/
def c3xPkt : DepthPacket :=
  { type_ := "delta", order_book := []
    delete := [buyLevel 1 0, buyLevel 2 0]
    update := [buyLevel 1 9], insert := [] }

/-- C3 (counterexample): applying the same delta twice does not yield the
same book state as applying it once. The second application's delete loop
pops price 1, then raises `KeyError` on price 2, so the re-upserted level
at price 1 is lost: after one application the bid book holds price 1,
after two it is empty. -/
theorem c3_twice_differs_from_once :
    dictGet 1 (on_depth (on_depth c3xState c3xPkt).1 c3xPkt).1.books.bids = none ∧
      dictGet 1 (on_depth c3xState c3xPkt).1.books.bids = some (buyLevel 1 9) := by
  decide

/-- C3 (amended): delta application is idempotent whenever the second
application itself completes without `KeyError`: if both applications of
the same delta report success, the book maps after one and after two
applications agree at every price on both sides. (When the second
application raises — any deleted price not re-upserted by the same delta —
the books can differ, as the counterexample shows.) -/
theorem c3_delta_idempotent_when_second_succeeds
    (pkt : DepthPacket) (st : DepthState) (hsnap : pkt.type_ ≠ "snapshot")
    (hwf : pairWF st.books)
    (h1 : (applyDelta pkt.delete pkt.update pkt.insert st.books).2 = true)
    (h2 : (applyDelta pkt.delete pkt.update pkt.insert
            (on_depth st pkt).1.books).2 = true)
    (buy : Bool) (q : ℚ) :
    dictGet q (sideBook buy (on_depth (on_depth st pkt).1 pkt).1.books) =
      dictGet q (sideBook buy (on_depth st pkt).1.books) := by
  have hb1 : (on_depth st pkt).1.books =
      (applyDelta pkt.delete pkt.update pkt.insert st.books).1 :=
    on_depth_books_delta st pkt hsnap
  have hwf1 : pairWF (on_depth st pkt).1.books := by
    rw [hb1]; exact applyDelta_wf _ _ _ _ hwf
  have hb2 : (on_depth (on_depth st pkt).1 pkt).1.books =
      (applyDelta pkt.delete pkt.update pkt.insert (on_depth st pkt).1.books).1 :=
    on_depth_books_delta _ pkt hsnap
  rw [hb2, applyDelta_get _ _ _ _ hwf1 h2, hb1, applyDelta_get _ _ _ _ hwf h1]
  cases hf : findLastUpsert buy q (pkt.update ++ pkt.insert)
  · by_cases hd : q ∈ delPrices buy pkt.delete <;> simp [hd]
  · simp

/-- Book state with a single resting bid, for the C3/C4 witnesses. -/
def demoBookState : DepthState :=
  { books := { bids := [(1, buyLevel 1 5)], asks := [] }, tick := tick0 }

/-- A delta deleting price 1 and upserting the same price in the same
packet. -/
def demoDeltaPkt : DepthPacket :=
  { type_ := "delta", order_book := []
    delete := [buyLevel 1 0]
    update := [buyLevel 1 9], insert := [] }

theorem c3_delta_idempotent_witness :
    (demoDeltaPkt.type_ ≠ "snapshot") ∧ pairWF demoBookState.books ∧
      (applyDelta demoDeltaPkt.delete demoDeltaPkt.update demoDeltaPkt.insert
        demoBookState.books).2 = true ∧
      (applyDelta demoDeltaPkt.delete demoDeltaPkt.update demoDeltaPkt.insert
        (on_depth demoBookState demoDeltaPkt).1.books).2 = true ∧
      dictGet 1 (sideBook true
          (on_depth (on_depth demoBookState demoDeltaPkt).1 demoDeltaPkt).1.books) =
        dictGet 1 (sideBook true (on_depth demoBookState demoDeltaPkt).1.books) :=
  ⟨by decide, by decide, by decide, by decide,
    c3_delta_idempotent_when_second_succeeds demoDeltaPkt demoBookState
      (by decide) (by decide) (by decide) (by decide) true 1⟩

/-- C4: in the non-snapshot branch of `on_depth` every delete is applied
strictly before any update/insert, so a price in the delete list ends up
holding exactly the last record the same delta upserts at that price —
present with the upserted record when the delta re-upserts it (never
lost), absent when it does not. -/
theorem c4_deletes_strictly_before_upserts (pkt : DepthPacket) (st : DepthState)
    (hsnap : pkt.type_ ≠ "snapshot") (hwf : pairWF st.books)
    (hok : (applyDelta pkt.delete pkt.update pkt.insert st.books).2 = true)
    (buy : Bool) (q : ℚ) (hdel : q ∈ delPrices buy pkt.delete) :
    dictGet q (sideBook buy (on_depth st pkt).1.books) =
      findLastUpsert buy q (pkt.update ++ pkt.insert) := by
  rw [on_depth_books_delta st pkt hsnap, applyDelta_get _ _ _ _ hwf hok]
  cases hf : findLastUpsert buy q (pkt.update ++ pkt.insert)
  · simp [hdel]
  · simp

theorem c4_deletes_strictly_before_upserts_witness :
    (demoDeltaPkt.type_ ≠ "snapshot") ∧ pairWF demoBookState.books ∧
      (applyDelta demoDeltaPkt.delete demoDeltaPkt.update demoDeltaPkt.insert
        demoBookState.books).2 = true ∧
      (1 : ℚ) ∈ delPrices true demoDeltaPkt.delete ∧
      dictGet 1 (sideBook true (on_depth demoBookState demoDeltaPkt).1.books) =
        findLastUpsert true 1 (demoDeltaPkt.update ++ demoDeltaPkt.insert) :=
  ⟨by decide, by decide, by decide, by decide,
    c4_deletes_strictly_before_upserts demoDeltaPkt demoBookState
      (by decide) (by decide) (by decide) true 1 (by decide)⟩

/-! ## Order identity reconciliation (`LocalOrderManager` callers) -/

/-- Order status after the `STATUS_BYBIT2VT` translation. -/
inductive VtStatus
  | notTraded
  | partTraded
  | allTraded
  | cancelled
  | rejected
deriving DecidableEq, Repr

/-- The `STATUS_BYBIT2VT` dict; an unknown venue status string is a
`KeyError` (`none`). -/
def STATUS_BYBIT2VT : String → Option VtStatus
  | "Created" => some .notTraded
  | "New" => some .notTraded
  | "PartiallyFilled" => some .partTraded
  | "Filled" => some .allTraded
  | "Cancelled" => some .cancelled
  | "Rejected" => some .rejected
  | _ => none

/-- The fields of an `OrderData` record that the identity-map claims
observe. -/
structure OrderRec where
  orderid : String
  status : VtStatus
  traded : ℚ
deriving DecidableEq, Repr

/-- The state of the gateway's `LocalOrderManager` plus the stream of
order events it pushed outward. -/
structure OmState where
  local2sys : List (String × String)
  sys2local : List (String × String)
  orders : List (String × OrderRec)
  events : List OrderRec
deriving DecidableEq, Repr

/-- Modelled from the spec: `LocalOrderManager.update_orderid_map` is not
under `src/` (the class lives in `vnpy.trader.gateway`); per spec §4.3
`bind(local_id, venue_id)` records the pair in both directions, and if
the local id is already bound the existing binding is preserved
(`AlreadyBound` is logged, not fatal — spec §7 `IdentityConflict`). -/
def update_orderid_map (st : OmState) (localId sysId : String) : OmState :=
  match dictGet localId st.local2sys with
  | some _ => st
  | none =>
    { st with
      local2sys := dictSet localId sysId st.local2sys
      sys2local := dictSet sysId localId st.sys2local }

/-- Modelled from the spec: `LocalOrderManager.get_order_with_sys_orderid`
is not under `src/`; per spec §4.3 a push update referencing a bound
venue id resolves to the existing `LocalOrder`, an unbound one to
nothing. -/
def get_order_with_sys_orderid (st : OmState) (sysId : String) : Option OrderRec :=
  match dictGet sysId st.sys2local with
  | none => none
  | some l => dictGet l st.orders

/-- Modelled from the spec: `LocalOrderManager.on_order` is not under
`src/`; it stores the order record under its local id and emits the
normalized `onOrder` event outward (spec §4.1 side effects, §6). -/
def manager_on_order (st : OmState) (o : OrderRec) : OmState :=
  { st with
    orders := dictSet o.orderid o st.orders
    events := st.events ++ [o] }

/-- `BybitRestApi.on_send_order`: the REST submission acknowledgment. On
a non-zero `ret_code`, `check_error` logs and the callback returns;
otherwise the acknowledged `(order_link_id, order_id)` pair is bound. -/
def on_send_order (st : OmState) (retCode : Int) (link sys : String) : OmState :=
  if retCode ≠ 0 then st else update_orderid_map st link sys

/-- One record `d` of a push `order` frame (or of a queried order page). -/
structure PushOrderData where
  order_id : String
  order_link_id : String
  order_status : String
  cum_exec_qty : ℚ
deriving DecidableEq, Repr

/-- `BybitWebsocketApi.on_order`, handling of one record `d`: resolve the
venue order id; if bound, update the existing order's traded quantity and
status; otherwise derive the local id (the echoed `order_link_id`, or the
venue id itself when that is empty), bind the pair, and build a fresh
`OrderData`. Either way the result goes through the manager's `on_order`.
`none` models the `KeyError` on an unknown status string. -/
def ws_on_order_rec (st : OmState) (d : PushOrderData) : Option OmState :=
  match get_order_with_sys_orderid st d.order_id with
  | some o =>
    match STATUS_BYBIT2VT d.order_status with
    | none => none
    | some s =>
      some (manager_on_order st { o with traded := d.cum_exec_qty, status := s })
  | none =>
    let localId := if d.order_link_id = "" then d.order_id else d.order_link_id
    let st1 := update_orderid_map st localId d.order_id
    match STATUS_BYBIT2VT d.order_status with
    | none => none
    | some s =>
      some (manager_on_order st1
        { orderid := localId, status := s, traded := d.cum_exec_qty })

/-- `BybitRestApi.on_query_order`, handling of one record `d`: derive the
local id (`order_link_id`, or the venue id when empty), bind the pair,
build an `OrderData` and push it through the manager. -/
def on_query_order_rec (st : OmState) (d : PushOrderData) : Option OmState :=
  let localId := if d.order_link_id = "" then d.order_id else d.order_link_id
  let st1 := update_orderid_map st localId d.order_id
  match STATUS_BYBIT2VT d.order_status with
  | none => none
  | some s =>
    some (manager_on_order st1
      { orderid := localId, status := s, traded := d.cum_exec_qty })

/-- The manager state right after `send_order` reserved local id `L`:
the pending order record exists under `L`, nothing is bound yet. -/
def initialPendingState (L : String) (o : OrderRec) : OmState :=
  { local2sys := [], sys2local := [], orders := [(L, o)], events := [] }

/-- A push order-update reporting venue id `V`, echoed local id `L`, and
a filled status. -/
def pushFill (L V : String) (q : ℚ) : PushOrderData :=
  { order_id := V, order_link_id := L, order_status := "Filled", cum_exec_qty := q }

/-- C2: starting from a pending local order `L`, the REST acknowledgment
binding `L → V` and the push update for `V` reporting a fill commute:
both arrival orders produce the identical manager state, in which `L`
and `V` resolve to each other, exactly one order record exists (keyed by
the local id, status filled, never duplicated under the venue id). -/
theorem c2_identity_map_converges (L V : String) (o : OrderRec) (q : ℚ)
    (hLV : L ≠ V) (hL : L ≠ "") (ho : o.orderid = L) :
    ws_on_order_rec (on_send_order (initialPendingState L o) 0 L V) (pushFill L V q) =
        (ws_on_order_rec (initialPendingState L o) (pushFill L V q)).map
          (fun st => on_send_order st 0 L V) ∧
      ws_on_order_rec (on_send_order (initialPendingState L o) 0 L V) (pushFill L V q) =
        some { local2sys := [(L, V)], sys2local := [(V, L)]
               orders := [(L, { orderid := L, status := .allTraded, traded := q })]
               events := [{ orderid := L, status := .allTraded, traded := q }] } ∧
      dictGet V [(L, ({ orderid := L, status := .allTraded, traded := q } : OrderRec))] =
        none := by
  have hVL : V ≠ L := Ne.symm hLV
  refine ⟨?_, ?_, ?_⟩
  · simp [ws_on_order_rec, on_send_order, initialPendingState, pushFill,
      update_orderid_map, get_order_with_sys_orderid, manager_on_order,
      dictGet, dictSet, STATUS_BYBIT2VT, hL, hVL, ho]
  · simp [ws_on_order_rec, on_send_order, initialPendingState, pushFill,
      update_orderid_map, get_order_with_sys_orderid, manager_on_order,
      dictGet, dictSet, STATUS_BYBIT2VT, hL, hVL, ho]
  · simp [dictGet, hVL, hLV]

theorem c2_identity_map_converges_witness :
    ("L1" : String) ≠ "V1" ∧ ("L1" : String) ≠ "" ∧
      (ws_on_order_rec
          (on_send_order (initialPendingState "L1" ⟨"L1", .notTraded, 0⟩) 0 "L1" "V1")
          (pushFill "L1" "V1" 3) =
        (ws_on_order_rec (initialPendingState "L1" ⟨"L1", .notTraded, 0⟩)
            (pushFill "L1" "V1" 3)).map (fun st => on_send_order st 0 "L1" "V1")) :=
  ⟨by decide, by decide,
    (c2_identity_map_converges "L1" "V1" ⟨"L1", .notTraded, 0⟩ 3
      (by decide) (by decide) rfl).1⟩

/-- C5: a push order update (and likewise a queried resting order) whose
venue id has no binding and whose `order_link_id` is empty makes the
gateway synthesize local id = venue id, bind that pair in both
directions, and emit a brand-new order record via the manager's
`on_order`. -/
theorem c5_synthesizes_local_id (st : OmState) (d : PushOrderData) (s : VtStatus)
    (hlink : d.order_link_id = "")
    (hunbound : dictGet d.order_id st.sys2local = none)
    (hfree : dictGet d.order_id st.local2sys = none)
    (hstatus : STATUS_BYBIT2VT d.order_status = some s) :
    (∃ st1, ws_on_order_rec st d = some st1 ∧
        dictGet d.order_id st1.local2sys = some d.order_id ∧
        dictGet d.order_id st1.sys2local = some d.order_id ∧
        st1.events = st.events ++
          [{ orderid := d.order_id, status := s, traded := d.cum_exec_qty }]) ∧
      (∃ st2, on_query_order_rec st d = some st2 ∧
        dictGet d.order_id st2.local2sys = some d.order_id ∧
        dictGet d.order_id st2.sys2local = some d.order_id ∧
        st2.events = st.events ++
          [{ orderid := d.order_id, status := s, traded := d.cum_exec_qty }]) := by
  have hresolve : get_order_with_sys_orderid st d.order_id = none := by
    simp [get_order_with_sys_orderid, hunbound]
  constructor
  · refine ⟨manager_on_order (update_orderid_map st d.order_id d.order_id)
        { orderid := d.order_id, status := s, traded := d.cum_exec_qty },
        by simp [ws_on_order_rec, hresolve, hlink, hstatus], ?_, ?_, ?_⟩ <;>
      simp [update_orderid_map, manager_on_order, hfree, dictGet_dictSet]
  · refine ⟨manager_on_order (update_orderid_map st d.order_id d.order_id)
        { orderid := d.order_id, status := s, traded := d.cum_exec_qty },
        by simp [on_query_order_rec, hlink, hstatus], ?_, ?_, ?_⟩ <;>
      simp [update_orderid_map, manager_on_order, hfree, dictGet_dictSet]

theorem c5_synthesizes_local_id_witness :
    (pushFill "" "V9" 2).order_link_id = "" ∧
      dictGet "V9" (initialPendingState "L1" ⟨"L1", .notTraded, 0⟩).sys2local = none ∧
      dictGet "V9" (initialPendingState "L1" ⟨"L1", .notTraded, 0⟩).local2sys = none ∧
      STATUS_BYBIT2VT (pushFill "" "V9" 2).order_status = some .allTraded ∧
      (∃ st1, ws_on_order_rec (initialPendingState "L1" ⟨"L1", .notTraded, 0⟩)
            (pushFill "" "V9" 2) = some st1 ∧
          dictGet "V9" st1.local2sys = some "V9" ∧
          dictGet "V9" st1.sys2local = some "V9" ∧
          st1.events = (initialPendingState "L1" ⟨"L1", .notTraded, 0⟩).events ++
            [{ orderid := "V9", status := .allTraded, traded := 2 }]) :=
  ⟨rfl, rfl, rfl, rfl,
    (c5_synthesizes_local_id (initialPendingState "L1" ⟨"L1", .notTraded, 0⟩)
      (pushFill "" "V9" 2) .allTraded rfl rfl rfl rfl).1⟩

/-! ## Send-order transport exceptions (`BybitRestApi.on_send_order_error`) -/

/-- The outwardly observable effect of one `on_send_order_error` call:
the mutated `request.extra` order, the events pushed through the order
manager, the log lines written, and whether anything was re-raised. -/
structure ErrorCallbackResult where
  order : OrderRec
  events : List OrderRec
  logs : List String
  raised : Bool
deriving DecidableEq, Repr

/-- `BybitRestApi.on_send_order_error`: mark the originating order
rejected and emit it through the manager; then, "Record exception if not
ConnectionError" — `self.on_error` (which writes the log and stderr) runs
only for non-`ConnectionError` exception types. The callback itself never
re-raises. -/
def on_send_order_error (isConnectionError : Bool) (ord : OrderRec) :
    ErrorCallbackResult :=
  let ord1 := { ord with status := .rejected }
  { order := ord1
    events := [ord1]
    logs := if isConnectionError then [] else ["on_error"]
    raised := false }

/-- C9 (counterexample): on a `ConnectionError` the fault is NOT logged —
`on_error` is skipped for `ConnectionError`, so no log line is written,
contradicting the claim's "the fault is logged" (the order is still
rejected). -/
theorem c9_connection_error_not_logged :
    (on_send_order_error true ⟨"L1", .notTraded, 0⟩).logs = [] ∧
      (on_send_order_error true ⟨"L1", .notTraded, 0⟩).order.status = .rejected := by
  decide

/-- C9 (amended): when sending an order raises a `ConnectionError`, the
originating order is marked rejected and the order event is emitted, and
no crash-level error is raised; the connection fault itself is not
logged (the `on_error` reporting path is explicitly skipped for
`ConnectionError`). -/
theorem c9_connection_error_rejects_without_log (ord : OrderRec) :
    (on_send_order_error true ord).order.status = .rejected ∧
      (on_send_order_error true ord).events = [{ ord with status := .rejected }] ∧
      (on_send_order_error true ord).raised = false ∧
      (on_send_order_error true ord).logs = [] :=
  ⟨rfl, rfl, rfl, rfl⟩

/-! ## History pagination (`BybitRestApi.query_history`) -/

/-- One entry of a `/v2/public/kline/list` result page. -/
structure KlineEntry where
  open_time : ℕ
  volume : ℚ
  open_price : ℚ
  high_price : ℚ
  low_price : ℚ
  close_price : ℚ
deriving DecidableEq, Repr, Inhabited

/-- One venue response to a history request. -/
structure HistResp where
  status_code : ℕ
  ret_code : ℤ
  result : List KlineEntry
deriving DecidableEq, Repr

/-- A normalized `BarData` (its datetime held as the bar's epoch
seconds). -/
structure BarE where
  datetime : ℕ
  volume : ℚ
  open_price : ℚ
  high_price : ℚ
  low_price : ℚ
  close_price : ℚ
deriving DecidableEq, Repr

/-- Conversion of one kline entry into a `BarData`. -/
def toBar (e : KlineEntry) : BarE :=
  { datetime := e.open_time, volume := e.volume, open_price := e.open_price
    high_price := e.high_price, low_price := e.low_price
    close_price := e.close_price }

/-- A page on which the `while True` loop stops: non-2xx HTTP status,
non-zero `ret_code`, empty result, or a short page
(`len(buf) < count` with `count = 200`). -/
def isTerminalResp (r : HistResp) : Bool :=
  decide (r.status_code / 100 ≠ 2) || decide (r.ret_code ≠ 0) ||
    r.result.isEmpty || decide (r.result.length < 200)

/-- `BybitRestApi.query_history`'s `while True` loop, the venue modelled
as the sequence of responses it returns to the successive requests. The
first component records the `from` start-time of every request issued;
the second is `some history` when the loop broke, and `none` when the
supplied responses were exhausted with the loop still running (the last
recorded request is the one left unanswered). After a full page the
cursor advances to the last bar's time plus the interval
(`TIMEDELTA_MAP[req.interval]`, in seconds). -/
def query_history (interval : ℕ) : ℕ → List HistResp → List ℕ × Option (List BarE)
  | startTime, [] => ([startTime], none)
  | startTime, r :: rs =>
    if r.status_code / 100 ≠ 2 then ([startTime], some [])
    else if r.ret_code ≠ 0 then ([startTime], some [])
    else if r.result.isEmpty then ([startTime], some [])
    else
      let buf := r.result.map toBar
      if buf.length < 200 then ([startTime], some buf)
      else
        let nextStart := (r.result.getLast?.getD default).open_time + interval
        let rec_ := query_history interval nextStart rs
        (startTime :: rec_.1, rec_.2.map (buf ++ ·))

/-- The concatenation, page by page in order, of the bars of every page
up to and including the first terminating one (failing or empty pages
contribute nothing); follows the claim's words, to be compared with the
loop. -/
def collectPages : List HistResp → List BarE
  | [] => []
  | r :: rs =>
    if r.status_code / 100 ≠ 2 ∨ r.ret_code ≠ 0 then []
    else if isTerminalResp r then r.result.map toBar
    else r.result.map toBar ++ collectPages rs

/-- C6: whenever the venue's response sequence contains a terminal page
(short, empty, or failing), `query_history` terminates with exactly the
in-order concatenation of the pages up to that point — a failing or
empty page is terminal and never retried — and after every full page the
next request's start-time cursor is the last bar's time plus the
interval. -/
theorem c6_query_history_terminates (interval startTime : ℕ) (resps : List HistResp)
    (hterm : ∃ r ∈ resps, isTerminalResp r = true) :
    (query_history interval startTime resps).2 = some (collectPages resps) ∧
      ∀ (st2 : ℕ) (r : HistResp) (rs : List HistResp), isTerminalResp r = false →
        (query_history interval st2 (r :: rs)).1 =
          st2 :: (query_history interval
            ((r.result.getLast?.getD default).open_time + interval) rs).1 := by
  constructor
  · induction resps generalizing startTime with
    | nil => simp at hterm
    | cons r rs ih =>
      by_cases h1 : r.status_code / 100 ≠ 2
      · simp [query_history, collectPages, h1]
      · by_cases h2 : r.ret_code ≠ 0
        · simp [query_history, collectPages, h1, h2]
        · by_cases h3 : r.result.isEmpty
          · have hnilr : r.result = [] := List.isEmpty_iff.mp h3
            simp [query_history, collectPages, h1, h2, h3, hnilr, isTerminalResp]
          · by_cases h4 : r.result.length < 200
            · have hterm' : isTerminalResp r = true := by
                simp [isTerminalResp, h4]
              simp [query_history, collectPages, h1, h2, h3, h4, hterm']
            · have hnt : isTerminalResp r = false := by
                simp [isTerminalResp, h1, h2, h3, h4]
              have hterm2 : ∃ r2 ∈ rs, isTerminalResp r2 = true := by
                rcases hterm with ⟨r2, hr2, ht2⟩
                rcases List.mem_cons.mp hr2 with rfl | hmem
                · rw [ht2] at hnt; cases hnt
                · exact ⟨r2, hmem, ht2⟩
              have hrec := ih ((r.result.getLast?.getD default).open_time + interval) hterm2
              simp [query_history, collectPages, h1, h2, h3, h4, hnt, hrec]
  · intro st2 r rs hnt
    have h1 : ¬r.status_code / 100 ≠ 2 := by
      intro h; simp [isTerminalResp, h] at hnt
    have h2 : ¬r.ret_code ≠ 0 := by
      intro h; simp [isTerminalResp, h] at hnt
    have h3 : ¬r.result.isEmpty := by
      intro h; simp [isTerminalResp, h] at hnt
    have h4 : ¬r.result.length < 200 := by
      intro h; simp [isTerminalResp, h] at hnt
    simp [query_history, h1, h2, h3, h4]

/-- A single short page (one bar), terminal for the history loop. -/
def demoHistResp : HistResp :=
  { status_code := 200, ret_code := 0, result := [⟨5, 1, 1, 1, 1, 1⟩] }

theorem c6_query_history_terminates_witness :
    (∃ r ∈ [demoHistResp], isTerminalResp r = true) ∧
      (query_history 60 0 [demoHistResp]).2 = some (collectPages [demoHistResp]) :=
  ⟨⟨demoHistResp, by decide, by decide⟩,
    (c6_query_history_terminates 60 0 [demoHistResp]
      ⟨demoHistResp, by decide, by decide⟩).1⟩

/-! ## Login resubscription order (`BybitWebsocketApi.on_login`) -/

/-- A remembered `SubscribeRequest` (one per symbol in
`self.subscribed`). -/
structure WsSubscribeRequest where
  symbol : String
deriving DecidableEq, Repr

/-- The two market-data subscribe frames `subscribe(req)` sends for one
symbol (first the `instrument_info` topic, then the order book topic). -/
def subscribe_frames (req : WsSubscribeRequest) : List String :=
  ["instrument_info.100ms." ++ req.symbol, "orderBookL2_25." ++ req.symbol]

/-- The private topics `on_login` subscribes after a successful
authentication (`wallet` only in USDT mode). -/
def privateTopics (usdtBase : Bool) : List String :=
  ["order", "execution", "position"] ++ (if usdtBase then ["wallet"] else [])

/-- `BybitWebsocketApi.on_login`, as the ordered trace of subscribe-frame
topics it sends: on `packet.get("success", False)` being true, the
private topics `order`, `execution`, `position` (and `wallet` when
`usdt_base`), then `subscribe(req)` for every remembered request; on
failure only a log line, no frames. -/
def on_login_frames (usdtBase : Bool) (subscribed : List WsSubscribeRequest)
    (success : Option Bool) : List String :=
  if success.getD false then
    (["order", "execution", "position"] ++ (if usdtBase then ["wallet"] else [])) ++
      subscribed.flatMap subscribe_frames
  else []

theorem length_le_of_mem_privateTopics (u : Bool) (t : String)
    (h : t ∈ privateTopics u) : t.length ≤ 9 := by
  cases u
  · simp [privateTopics] at h
    rcases h with rfl | rfl | rfl <;> decide
  · simp [privateTopics] at h
    rcases h with rfl | rfl | rfl | rfl <;> decide

theorem length_ge_of_mem_subscribe_frames (r : WsSubscribeRequest) (t : String)
    (h : t ∈ subscribe_frames r) : 15 ≤ t.length := by
  simp [subscribe_frames] at h
  rcases h with rfl | rfl
  · rw [String.length_append]
    have h22 : ("instrument_info.100ms." : String).length = 22 := rfl
    omega
  · rw [String.length_append]
    have h15 : ("orderBookL2_25." : String).length = 15 := rfl
    omega

/-- C7: after a successful authentication response, every private-topic
subscribe frame `on_login` sends comes strictly before every re-sent
per-symbol market-data subscribe frame in the outbound trace. -/
theorem c7_private_topics_before_market_data (usdtBase : Bool)
    (subscribed : List WsSubscribeRequest) (success : Option Bool)
    (hsucc : success = some true) (i j : ℕ) (t u : String)
    (hpriv : (on_login_frames usdtBase subscribed success)[i]? = some t)
    (htP : t ∈ privateTopics usdtBase)
    (hmkt : (on_login_frames usdtBase subscribed success)[j]? = some u)
    (hum : ∃ r ∈ subscribed, u ∈ subscribe_frames r) :
    i < j := by
  subst hsucc
  have hF : on_login_frames usdtBase subscribed (some true) =
      privateTopics usdtBase ++ subscribed.flatMap subscribe_frames := by
    simp [on_login_frames, privateTopics]
  rw [hF] at hpriv hmkt
  have htlen : t.length ≤ 9 := length_le_of_mem_privateTopics usdtBase t htP
  have hulen : 15 ≤ u.length := by
    rcases hum with ⟨r, _, hur⟩
    exact length_ge_of_mem_subscribe_frames r u hur
  have hiP : i < (privateTopics usdtBase).length := by
    by_contra hge
    push_neg at hge
    rw [List.getElem?_append_right hge] at hpriv
    have hmem : t ∈ subscribed.flatMap subscribe_frames := List.getElem?_mem hpriv
    rcases List.exists_of_mem_flatMap hmem with ⟨r2, _, htr⟩
    have := length_ge_of_mem_subscribe_frames r2 t htr
    omega
  have hjM : (privateTopics usdtBase).length ≤ j := by
    by_contra hlt
    push_neg at hlt
    rw [List.getElem?_append_left hlt] at hmkt
    have hmem : u ∈ privateTopics usdtBase := List.getElem?_mem hmkt
    have := length_le_of_mem_privateTopics usdtBase u hmem
    omega
  omega

theorem c7_private_topics_before_market_data_witness :
    (some true = some true) ∧
      (on_login_frames true [⟨"BTCUSDT"⟩] (some true))[0]? = some "order" ∧
      ("order" : String) ∈ privateTopics true ∧
      (on_login_frames true [⟨"BTCUSDT"⟩] (some true))[4]? =
        some ("instrument_info.100ms." ++ "BTCUSDT") ∧
      (∃ r ∈ [(⟨"BTCUSDT"⟩ : WsSubscribeRequest)],
        ("instrument_info.100ms." ++ "BTCUSDT") ∈ subscribe_frames r) ∧
      (0 : ℕ) < 4 :=
  ⟨rfl, by decide, by decide, by decide,
    ⟨⟨"BTCUSDT"⟩, by decide, by decide⟩,
    c7_private_topics_before_market_data true [⟨"BTCUSDT"⟩] (some true) rfl 0 4
      "order" ("instrument_info.100ms." ++ "BTCUSDT") (by decide) (by decide)
      (by decide) ⟨⟨"BTCUSDT"⟩, by decide, by decide⟩⟩

/-! ## Inbound frame routing (`on_packet`, both websocket APIs) -/

/-- The handlers that can be registered in the `self.callbacks` dict. -/
inductive HandlerTag
  | tick
  | depth
  | order
  | trade
  | position
  | account
deriving DecidableEq, Repr

/-- An inbound frame as `on_packet` inspects it: the optional `topic`
key and the optional `packet["request"]["op"]` value. -/
structure WsPacket where
  topic? : Option String
  request_op? : Option String
deriving DecidableEq, Repr

/-- What a single `on_packet` call does with a frame. -/
inductive PacketAction
  | login
  | dispatch (tag : HandlerTag)
  | ignored
deriving DecidableEq, Repr

/-- `on_packet` (identical in `BybitWebsocketApi` and
`BybitPublicWebsocketApi`): a frame without a `topic` goes through the
fixed non-topic rule (`auth` acknowledgments reach `on_login`; reading
`packet["request"]` can itself raise `KeyError`); a frame with a topic
is dispatched through `self.callbacks[channel]`, which raises `KeyError`
(`Except.error`) when no handler is registered for the topic. -/
def on_packet (callbacks : List (String × HandlerTag)) (pkt : WsPacket) :
    Except Unit PacketAction :=
  match pkt.topic? with
  | none =>
    match pkt.request_op? with
    | none => .error ()
    | some op => if op = "auth" then .ok .login else .ok .ignored
  | some channel =>
    match dictGet channel callbacks with
    | none => .error ()
    | some tag => .ok (.dispatch tag)

/-- Modelled from the spec: the websocket client's read loop that invokes
`on_packet` lives in `vnpy.api.websocket`, which is not under `src/`.
Per spec §4.1/§7 an exception escaping a frame handler is reported
through `on_error` (a logged message), the frame is dropped, and the
session keeps running rather than crashing. -/
def session_step (callbacks : List (String × HandlerTag)) (logs : List String)
    (pkt : WsPacket) : List String × Option PacketAction :=
  match on_packet callbacks pkt with
  | .error _ => (logs ++ ["exception"], none)
  | .ok a => (logs, some a)

/-- The callbacks table of a session subscribed to the private topics. -/
def demoCallbacks : List (String × HandlerTag) :=
  [("order", .order), ("execution", .trade), ("position", .position)]

/-- C8 (counterexample): a push frame whose topic has no registered
handler makes `on_packet` itself raise `KeyError` — it neither logs nor
drops the frame without raising, contradicting the claim as stated. -/
theorem c8_unknown_topic_raises :
    on_packet demoCallbacks ⟨some "unknown.topic", none⟩ = .error () := rfl

/-- C8 (amended): for a frame whose topic has no registered handler,
`on_packet` raises `KeyError` (it writes no log itself); the enclosing
read loop — not under `src/`, modelled from the spec — catches the
exception, logs it loudly, and drops the frame, so the session does not
crash. -/
theorem c8_unknown_topic_dropped_by_loop (callbacks : List (String × HandlerTag))
    (logs : List String) (pkt : WsPacket) (ch : String)
    (htopic : pkt.topic? = some ch) (hmiss : dictGet ch callbacks = none) :
    on_packet callbacks pkt = .error () ∧
      session_step callbacks logs pkt = (logs ++ ["exception"], none) := by
  have h1 : on_packet callbacks pkt = .error () := by
    simp [on_packet, htopic, hmiss]
  exact ⟨h1, by simp [session_step, h1]⟩

theorem c8_unknown_topic_dropped_by_loop_witness :
    (⟨some "unknown.topic", none⟩ : WsPacket).topic? = some "unknown.topic" ∧
      dictGet "unknown.topic" demoCallbacks = none ∧
      session_step demoCallbacks [] ⟨some "unknown.topic", none⟩ =
        (["exception"], none) :=
  ⟨rfl, by decide,
    (c8_unknown_topic_dropped_by_loop demoCallbacks [] ⟨some "unknown.topic", none⟩
      "unknown.topic" rfl (by decide)).2⟩

/-! ## Instrument-info tick handling (`on_tick`, both websocket APIs) -/

/-- A JSON scalar as Python sees it before conversion: a number or a
string (`int(...)` accepts both; truthiness differs). -/
inductive PyVal
  | pint (n : ℤ)
  | pstr (s : String)
deriving DecidableEq, Repr

/-- Python truthiness of a scalar: `0` and `""` are falsy. -/
def pyTruthy : PyVal → Bool
  | .pint n => decide (n ≠ 0)
  | .pstr s => decide (s ≠ "")

/-- Digit-string parser: the restriction of Python `int(str)` to the
unsigned decimal strings the venue sends (`none` raises `ValueError`). -/
def parseDigits : List Char → ℕ → Option ℕ
  | [], acc => some acc
  | c :: cs, acc =>
    if c.isDigit then parseDigits cs (acc * 10 + (c.toNat - 48)) else none

/-- Python `int(...)` on a string. -/
def pyIntOfString (s : String) : Option ℕ :=
  match s.toList with
  | [] => none
  | cs => parseDigits cs 0

/-- Python `int(...)` on a scalar (may raise `ValueError` on a malformed
string). -/
def pyToInt : PyVal → Option ℤ
  | .pint n => some n
  | .pstr s => (pyIntOfString s).map Int.ofNat

/-- The cached per-symbol `TickData` fields `on_tick` mutates: last
price, 24h volume, and the timestamp (as an epoch instant). -/
structure TickState where
  last_price : ℚ
  volume : ℚ
  ts : ℤ
deriving DecidableEq, Repr

/-- One entry of `data["update"]` in the public `instrument_info`
stream; both fields are optional (`"last_price_e4" in update`). -/
structure InstUpdate where
  last_price_e4 : Option PyVal
  volume_24h_e8 : Option PyVal
deriving DecidableEq, Repr

/-- A public `instrument_info.100ms` packet (the symbol recovered from
the topic). `last_price_e4`/`volume_24h_e8` are the snapshot's `data`
fields; `update` is the delta's `data["update"]` list. -/
structure TickPacketPub where
  symbol : String
  type_ : String
  last_price_e4 : Option PyVal
  volume_24h_e8 : Option PyVal
  update : List InstUpdate
  timestamp_e6 : String
deriving DecidableEq, Repr

/-- `BybitPublicWebsocketApi.on_tick`. Returns the updated tick cache
and the list of emitted quote events; `none` models an exception
(`KeyError`/`IndexError`/`ValueError`) escaping the handler. The
filter "last price with 0 value" returns early, before any cache
mutation and before any emission. -/
def public_on_tick (ticks : List (String × TickState)) (pkt : TickPacketPub) :
    Option (List (String × TickState) × List TickState) := do
  let ts ← pyIntOfString (pkt.timestamp_e6.take 10)
  let tick ← dictGet pkt.symbol ticks
  if pkt.type_ = "snapshot" then
    let lp ← pkt.last_price_e4
    if pyTruthy lp = false then
      pure (ticks, [])
    else do
      let lpn ← pyToInt lp
      let vv ← pkt.volume_24h_e8
      let vvn ← pyToInt vv
      let t1 : TickState :=
        { last_price := (lpn : ℚ) / 10000, volume := (vvn : ℚ) / 100000000
          ts := (ts : ℤ) }
      pure (dictSet pkt.symbol t1 ticks, [t1])
  else do
    let u ← pkt.update.head?
    match u.last_price_e4 with
    | some lp =>
      if pyTruthy lp = false then
        pure (ticks, [])
      else do
        let lpn ← pyToInt lp
        let t1 := { tick with last_price := (lpn : ℚ) / 10000 }
        let t2 ←
          match u.volume_24h_e8 with
          | some vv => (pyToInt vv).map fun n =>
              { t1 with volume := (n : ℚ) / 100000000 }
          | none => some t1
        let t3 := { t2 with ts := (ts : ℤ) }
        pure (dictSet pkt.symbol t3 ticks, [t3])
    | none => do
      let t2 ←
        match u.volume_24h_e8 with
        | some vv => (pyToInt vv).map fun n =>
            { tick with volume := (n : ℚ) / 100000000 }
        | none => some tick
      let t3 := { t2 with ts := ts }
      pure (dictSet pkt.symbol t3 ticks, [t3])

/-- One entry of `data["update"]` in the private (inverse) stream;
values arrive as numbers here. -/
structure InstUpdatePriv where
  last_price_e4 : Option ℚ
  volume_24h : Option ℚ
deriving DecidableEq, Repr

/-- A private-stream `instrument_info` packet; `updated_at` stands for
the instant `generate_datetime(data["updated_at"])` produces. -/
structure TickPacketPriv where
  symbol : String
  type_ : String
  last_price_e4 : Option ℚ
  volume_24h : Option ℚ
  update : List InstUpdatePriv
  updated_at : ℤ
deriving DecidableEq, Repr

/-- `BybitWebsocketApi.on_tick` (numeric wire values, `volume_24h`
instead of `volume_24h_e8`, timestamp from `data["updated_at"]`);
the zero-last-price filter likewise returns before any mutation. -/
def private_on_tick (ticks : List (String × TickState)) (pkt : TickPacketPriv) :
    Option (List (String × TickState) × List TickState) := do
  let tick ← dictGet pkt.symbol ticks
  if pkt.type_ = "snapshot" then
    let lp ← pkt.last_price_e4
    if lp = 0 then
      pure (ticks, [])
    else do
      let vv ← pkt.volume_24h
      let t1 : TickState :=
        { last_price := lp / 10000, volume := vv, ts := pkt.updated_at }
      pure (dictSet pkt.symbol t1 ticks, [t1])
  else do
    let u ← pkt.update.head?
    match u.last_price_e4 with
    | some lp =>
      if lp = 0 then
        pure (ticks, [])
      else
        let t1 := { tick with last_price := lp / 10000 }
        let t2 :=
          match u.volume_24h with
          | some vv => { t1 with volume := vv }
          | none => t1
        let t3 := { t2 with ts := pkt.updated_at }
        pure (dictSet pkt.symbol t3 ticks, [t3])
    | none =>
      let t2 :=
        match u.volume_24h with
        | some vv => { tick with volume := vv }
        | none => tick
      let t3 := { t2 with ts := pkt.updated_at }
      pure (dictSet pkt.symbol t3 ticks, [t3])

/-- C10: an `instrument_info` packet (snapshot, or update carrying a
`last_price_e4` field) whose last price is zero/empty makes `on_tick`
return early in both websocket APIs: no quote event is emitted and the
cached per-symbol tick state is unchanged. -/
theorem c10_zero_last_price_filtered (ticks : List (String × TickState)) :
    (∀ (pkt : TickPacketPub) (ts0 : ℕ) (tk : TickState) (lp : PyVal),
      pyIntOfString (pkt.timestamp_e6.take 10) = some ts0 →
      dictGet pkt.symbol ticks = some tk →
      pkt.type_ = "snapshot" →
      pkt.last_price_e4 = some lp → pyTruthy lp = false →
      public_on_tick ticks pkt = some (ticks, [])) ∧
    (∀ (pkt : TickPacketPub) (ts0 : ℕ) (tk : TickState) (u0 : InstUpdate) (lp : PyVal),
      pyIntOfString (pkt.timestamp_e6.take 10) = some ts0 →
      dictGet pkt.symbol ticks = some tk →
      pkt.type_ ≠ "snapshot" →
      pkt.update.head? = some u0 →
      u0.last_price_e4 = some lp → pyTruthy lp = false →
      public_on_tick ticks pkt = some (ticks, [])) ∧
    (∀ (pkt : TickPacketPriv) (tk : TickState),
      dictGet pkt.symbol ticks = some tk →
      pkt.type_ = "snapshot" →
      pkt.last_price_e4 = some 0 →
      private_on_tick ticks pkt = some (ticks, [])) ∧
    (∀ (pkt : TickPacketPriv) (tk : TickState) (u0 : InstUpdatePriv),
      dictGet pkt.symbol ticks = some tk →
      pkt.type_ ≠ "snapshot" →
      pkt.update.head? = some u0 →
      u0.last_price_e4 = some 0 →
      private_on_tick ticks pkt = some (ticks, [])) := by
  refine ⟨?_, ?_, ?_, ?_⟩
  · intro pkt ts0 tk lp hts htk htype hlp hfalsy
    simp [public_on_tick, hts, htk, htype, hlp, hfalsy]
  · intro pkt ts0 tk u0 lp hts htk htype hhead hlp hfalsy
    simp [public_on_tick, hts, htk, htype, hhead, hlp, hfalsy]
  · intro pkt tk htk htype hlp
    simp [private_on_tick, htk, htype, hlp]
  · intro pkt tk u0 htk htype hhead hlp
    simp [private_on_tick, htk, htype, hhead, hlp]

theorem c10_zero_last_price_filtered_witness :
    pyIntOfString (("1234567890123456" : String).take 10) = some 1234567890 ∧
      dictGet "BTCUSDT" [("BTCUSDT", (⟨7, 2, 0⟩ : TickState))] = some ⟨7, 2, 0⟩ ∧
      pyTruthy (.pint 0) = false ∧
      public_on_tick [("BTCUSDT", (⟨7, 2, 0⟩ : TickState))]
          ⟨"BTCUSDT", "snapshot", some (.pint 0), some (.pint 5), [], "1234567890123456"⟩ =
        some ([("BTCUSDT", (⟨7, 2, 0⟩ : TickState))], []) :=
  ⟨by decide, by decide, by decide,
    (c10_zero_last_price_filtered [("BTCUSDT", (⟨7, 2, 0⟩ : TickState))]).1
      ⟨"BTCUSDT", "snapshot", some (.pint 0), some (.pint 5), [], "1234567890123456"⟩
      1234567890 ⟨7, 2, 0⟩ (.pint 0) (by decide) (by decide) rfl rfl (by decide)⟩

end VnpyBybit
